import Mathlib

/-!
Verification development for the `stateright` actor model-checking library,
focusing on the register-protocol wrapper (`src/actor/register.rs`) and the
write-once-register example (`examples/wor.rs`).

Actor ids are modelled as `Nat` (positions in the system's actor list).
The core system/checker module is not part of the sources at hand, so the
network model and the exhaustive checker are modelled from the specification
(§4.2/§4.3); those definitions carry a `Modelled from the spec` note.
-/

namespace Stateright

/-- An in-flight message with source and destination actor ids
(`Envelope { src, dst, msg }`). -/
structure Envelope (Id Msg : Type) where
  src : Id
  dst : Id
  msg : Msg
  deriving DecidableEq, Repr

/-- `ActorInput`: the single `Deliver { src, msg }` variant. -/
inductive ActorInput (Id Msg : Type) where
  | Deliver (src : Id) (msg : Msg)
  deriving DecidableEq, Repr

/-- `ActorResult { state, outputs }`: the output of one transition.  An output
is a `(dst, msg)` pair produced by `outputs.send(dst, msg)`. -/
structure ActorResult (Id Msg State : Type) where
  state : State
  outputs : List (Id × Msg)
  deriving DecidableEq, Repr

/-- The `Actor` trait, as a record of its `start` and `advance` methods. -/
structure ActorImpl (Id Msg State : Type) where
  start : ActorResult Id Msg State
  advance : State → ActorInput Id Msg → Option (ActorResult Id Msg State)

/-! ## `src/actor/register.rs` -/

/-- `RegisterMsg<Value, ServerMsg>`: the message union of the register
protocol wrapper. -/
inductive RegisterMsg (Value SMsg : Type) where
  | Put (value : Value)
  | Get
  | Respond (value : Value)
  | Internal (m : SMsg)
  deriving DecidableEq, Repr

/-- `RegisterCfg<Id, Value, ServerCfg>`: wrapper configuration for
model-checking a register-like actor. -/
inductive RegisterCfg (Id Value SCfg : Type) where
  | Client (server_ids : List Id) (desired_value : Value)
  | Server (cfg : SCfg)
  deriving DecidableEq, Repr

/-- `RegisterState<ServerState>`: wrapper state. -/
inductive RegisterState (SState : Type) where
  | Client
  | Server (s : SState)
  deriving DecidableEq, Repr

namespace RegisterCfg

variable {Id Value SCfg SMsg SState : Type}

/-- `RegisterCfg::start`.  The `Client` arm pushes, for each configured server
id in order, a `Put { value: desired_value }` then a `Get`; the `Server` arm
forwards to the wrapped server actor (`sstart`) and wraps the state. -/
def start (sstart : SCfg → ActorResult Id (RegisterMsg Value SMsg) SState) :
    RegisterCfg Id Value SCfg →
      ActorResult Id (RegisterMsg Value SMsg) (RegisterState SState)
  | .Client server_ids desired_value =>
      { state := RegisterState.Client,
        outputs := server_ids.foldl
          (fun outputs server_id =>
            outputs ++ [(server_id, RegisterMsg.Put desired_value),
                        (server_id, RegisterMsg.Get)]) [] }
  | .Server server_cfg =>
      let server_result := sstart server_cfg
      { state := RegisterState.Server server_result.state,
        outputs := server_result.outputs }

/-- `RegisterCfg::advance`.  Only a `Server` configuration holding a `Server`
state forwards to the wrapped actor (`sadv`); every other combination returns
`None`. -/
def advance
    (sadv : SCfg → SState → ActorInput Id (RegisterMsg Value SMsg) →
      Option (ActorResult Id (RegisterMsg Value SMsg) SState)) :
    RegisterCfg Id Value SCfg → RegisterState SState →
      ActorInput Id (RegisterMsg Value SMsg) →
      Option (ActorResult Id (RegisterMsg Value SMsg) (RegisterState SState)) :=
  fun cfg state input =>
    match cfg with
    | .Server server_cfg =>
        match state with
        | .Server server_state =>
            match sadv server_cfg server_state input with
            | some server_result =>
                some { state := RegisterState.Server server_result.state,
                       outputs := server_result.outputs }
            | none => none
        | _ => none
    | _ => none

end RegisterCfg

/-- `ActorSystemSnapshot { actor_states, network }`. -/
structure ActorSystemSnapshot (Msg State : Type) where
  actor_states : List State
  network : List (Envelope Nat Msg)
  deriving DecidableEq, Repr

/-- Consecutive deduplication, as Rust's `Vec::dedup` (removes consecutive
repeated elements). -/
def dedupConsec {α : Type} [DecidableEq α] : List α → List α
  | [] => []
  | [a] => [a]
  | a :: b :: rest =>
      if a = b then dedupConsec (b :: rest) else a :: dedupConsec (b :: rest)

/-- The `filter_map` body of `response_values`: keep a `Respond`'s value,
drop everything else. -/
def respondValue {Value SMsg : Type} : RegisterMsg Value SMsg → Option Value
  | RegisterMsg.Respond value => some value
  | _ => none

/-- `response_values`: collects the value of every `Respond` envelope in the
snapshot's network, then `sort`s and `dedup`s (so the result is the sorted,
duplicate-free list of distinct responded values). -/
def response_values {Value SMsg SState : Type} [LinearOrder Value]
    [DecidableEq Value]
    (state : ActorSystemSnapshot (RegisterMsg Value SMsg) (RegisterState SState)) :
    List Value :=
  let values : List Value := state.network.filterMap
    (fun env => respondValue env.msg)
  dedupConsec (values.insertionSort (· ≤ ·))

/-! ## `examples/wor.rs` — the write-once register server -/

/-- `ServerState { maybe_value }` of the write-once register server. -/
structure ServerState where
  maybe_value : Option Char
  deriving DecidableEq, Repr

/-- `ServerCfg::start`: initial state has `maybe_value = None`, no outputs. -/
def serverStart {Id : Type} :
    ActorResult Id (RegisterMsg Char Unit) ServerState :=
  { state := { maybe_value := none }, outputs := [] }

/-- `ServerCfg::advance`: a `Put` is accepted only while `maybe_value` is
`None` (and records the value); a `Get` is answered with
`Respond { value }` to the sender only once a value is stored; everything
else is ignored (`None`). -/
def serverAdvance {Id : Type} (state : ServerState)
    (input : ActorInput Id (RegisterMsg Char Unit)) :
    Option (ActorResult Id (RegisterMsg Char Unit) ServerState) :=
  match input with
  | .Deliver src msg =>
    match msg with
    | RegisterMsg.Put value =>
        if state.maybe_value = none then
          some { state := { maybe_value := some value }, outputs := [] }
        else none
    | RegisterMsg.Get =>
        match state.maybe_value with
        | some value =>
            some { state := state, outputs := [(src, RegisterMsg.Respond value)] }
        | none => none
    | _ => none

/-- The write-once server as an `Actor` (its `ServerCfg` struct is a unit). -/
def serverImpl : ActorImpl Nat (RegisterMsg Char Unit) ServerState :=
  { start := serverStart, advance := serverAdvance }

/-- The `Actor` implementation of `RegisterCfg` instantiated with the
write-once server of `wor.rs`. -/
def worActorImpl (cfg : RegisterCfg Nat Char Unit) :
    ActorImpl Nat (RegisterMsg Char Unit) (RegisterState ServerState) :=
  { start := RegisterCfg.start (fun _ => serverImpl.start) cfg,
    advance := RegisterCfg.advance (fun _ => serverImpl.advance) cfg }

/-! ## System model and checker

Modelled from the spec: the `ActorSystem` / network simulation and the
`Checker` exploration engine (the crate's `actor/system.rs` and checker
module are not among the sources at hand; §4.2 and §4.3 of the spec describe
them). -/

/-- Modelled from the spec: `ActorSystem { actors, init_network,
lossy_network }` — immutable configuration of a system (§2, §3). -/
structure ActorSystem (Cfg Msg : Type) where
  actors : List Cfg
  init_network : List (Envelope Nat Msg)
  lossy_network : Bool

/-- The network is kept as a sorted duplicate-free collection (a `BTreeSet`
of envelopes): insertion keeps the list ordered under `le` and drops an
envelope already present.  `le` plays the role of the envelopes' `Ord`
instance. -/
def insertEnv {Msg : Type} [DecidableEq Msg]
    (le : Envelope Nat Msg → Envelope Nat Msg → Bool) (e : Envelope Nat Msg) :
    List (Envelope Nat Msg) → List (Envelope Nat Msg)
  | [] => [e]
  | a :: rest =>
      if e = a then a :: rest
      else if le e a then e :: a :: rest
      else a :: insertEnv le e rest

/-- Modelled from the spec: the initial snapshot is built by invoking
`start()` for every actor in order (actor ids are list positions),
combining all emitted outputs with the system's initial network into the
network set (§4.3 step 1). -/
def initialSnapshot {Cfg Msg State : Type} [DecidableEq Msg]
    (impl : Cfg → ActorImpl Nat Msg State)
    (le : Envelope Nat Msg → Envelope Nat Msg → Bool)
    (sys : ActorSystem Cfg Msg) : ActorSystemSnapshot Msg State :=
  { actor_states := sys.actors.map (fun c => (impl c).start.state),
    network :=
      (sys.init_network ++
        (List.range sys.actors.length).flatMap (fun i =>
          match sys.actors[i]? with
          | some c => (impl c).start.outputs.map
              (fun o => ({ src := i, dst := o.1, msg := o.2 } : Envelope Nat Msg))
          | none => [])).foldl (fun net e => insertEnv le e net) [] }

/-- Modelled from the spec: the "deliver" branch for one pending envelope
`e`: invoke the destination actor's `advance`; on `Some result` the
destination's state is replaced and the outputs are added to the network
(the delivered envelope itself stays pending, so it may be delivered again —
the reading of §4.2 pinned by the reference visited count of Scenario A,
which the repository's own `can_model_wor` test asserts); on `None` no
successor is minted (§3, §4.1). -/
def deliverSuccs {Cfg Msg State : Type} [DecidableEq Msg]
    (impl : Cfg → ActorImpl Nat Msg State)
    (le : Envelope Nat Msg → Envelope Nat Msg → Bool)
    (sys : ActorSystem Cfg Msg) (s : ActorSystemSnapshot Msg State)
    (e : Envelope Nat Msg) : List (ActorSystemSnapshot Msg State) :=
  match sys.actors[e.dst]?, s.actor_states[e.dst]? with
  | some cfg, some st =>
      match (impl cfg).advance st (ActorInput.Deliver e.src e.msg) with
      | some result =>
          [{ actor_states := s.actor_states.set e.dst result.state,
             network := result.outputs.foldl
               (fun net o => insertEnv le { src := e.dst, dst := o.1, msg := o.2 } net)
               s.network }]
      | none => []
  | _, _ => []

/-- Modelled from the spec: all legal successors of a snapshot — one deliver
branch per pending envelope, plus, under a lossy network, one drop branch
per pending envelope that removes it without any advance call (§4.2, §4.3
step 3). -/
def successors {Cfg Msg State : Type} [DecidableEq Msg]
    (impl : Cfg → ActorImpl Nat Msg State)
    (le : Envelope Nat Msg → Envelope Nat Msg → Bool)
    (sys : ActorSystem Cfg Msg) (s : ActorSystemSnapshot Msg State) :
    List (ActorSystemSnapshot Msg State) :=
  s.network.flatMap (fun e =>
    deliverSuccs impl le sys s e ++
      (if sys.lossy_network then
        [({ actor_states := s.actor_states, network := s.network.erase e } :
          ActorSystemSnapshot Msg State)]
      else []))

/-- Modelled from the spec: reachability under the step relation — the
reflexive-transitive closure of "is a successor of", from the initial
snapshot (§4.3). -/
def Reachable {Cfg Msg State : Type} [DecidableEq Msg]
    (impl : Cfg → ActorImpl Nat Msg State)
    (le : Envelope Nat Msg → Envelope Nat Msg → Bool)
    (sys : ActorSystem Cfg Msg) (s : ActorSystemSnapshot Msg State) : Prop :=
  Relation.ReflTransGen (fun a b => b ∈ successors impl le sys a)
    (initialSnapshot impl le sys) s

/-- Modelled from the spec: `CheckResult` — `Pass`, or `Fail` carrying the
offending snapshot (§4.3, §7). -/
inductive CheckResult (α : Type) where
  | Pass
  | Fail (snapshot : α)
  deriving DecidableEq, Repr

/-- Modelled from the spec: one step of the checker loop folds each successor
into the visited set and frontier if it is new (§4.3 step 3). -/
def foldNew {α : Type} [DecidableEq α] (visited : List α) (succs : List α) :
    List α × List α :=
  succs.foldl
    (fun acc s => if s ∈ acc.1 then acc else (acc.1 ++ [s], acc.2 ++ [s]))
    (visited, [])

/-- Modelled from the spec: the checker's work loop — pop a snapshot from the
frontier while the bound allows, fail if any successor violates the
invariant, otherwise fold new successors into visited/frontier; pass when
the frontier empties or the bound is reached (§4.3 steps 3–4). -/
def checkLoop {Cfg Msg State : Type} [DecidableEq Msg] [DecidableEq State]
    (impl : Cfg → ActorImpl Nat Msg State)
    (le : Envelope Nat Msg → Envelope Nat Msg → Bool)
    (sys : ActorSystem Cfg Msg)
    (inv : ActorSystemSnapshot Msg State → Bool) :
    Nat → List (ActorSystemSnapshot Msg State) →
      List (ActorSystemSnapshot Msg State) →
      CheckResult (ActorSystemSnapshot Msg State) ×
        List (ActorSystemSnapshot Msg State)
  | _, [], visited => (CheckResult.Pass, visited)
  | 0, _, visited => (CheckResult.Pass, visited)
  | fuel + 1, s :: queue, visited =>
      let succs := successors impl le sys s
      match succs.find? (fun t => ! inv t) with
      | some bad => (CheckResult.Fail bad, visited)
      | none =>
          let fold := foldNew visited succs
          checkLoop impl le sys inv fuel (queue ++ fold.2) fold.1

/-- Modelled from the spec: `Checker::check(bound)` together with
`sources()` — explores every reachable snapshot up to the bound, returning
the result and the visited-snapshot collection (§4.3, §6). -/
def check {Cfg Msg State : Type} [DecidableEq Msg] [DecidableEq State]
    (impl : Cfg → ActorImpl Nat Msg State)
    (le : Envelope Nat Msg → Envelope Nat Msg → Bool)
    (sys : ActorSystem Cfg Msg)
    (inv : ActorSystemSnapshot Msg State → Bool) (bound : Nat) :
    CheckResult (ActorSystemSnapshot Msg State) ×
      List (ActorSystemSnapshot Msg State) :=
  let s0 := initialSnapshot impl le sys
  if inv s0 then checkLoop impl le sys inv bound [s0] [s0]
  else (CheckResult.Fail s0, [s0])

/-! ## The write-once-register system of `wor.rs` -/

/-- The sort key corresponding to the derived `Ord` of
`RegisterMsg<char, ()>`: variant index in declaration order, then the
carried value. -/
def worMsgKey : RegisterMsg Char Unit → Nat × Nat
  | .Put v => (0, v.toNat)
  | .Get => (1, 0)
  | .Respond v => (2, v.toNat)
  | .Internal _ => (3, 0)

/-- The envelope ordering of the network set (the derived `Ord` of
`Envelope`): lexicographic on `(src, dst, msg)`. -/
def worEnvLE (a b : Envelope Nat (RegisterMsg Char Unit)) : Bool :=
  let ka : Nat × Nat × Nat × Nat := (a.src, a.dst, worMsgKey a.msg)
  let kb : Nat × Nat × Nat × Nat := (b.src, b.dst, worMsgKey b.msg)
  decide (ka.1 < kb.1 ∨ (ka.1 = kb.1 ∧ (ka.2.1 < kb.2.1 ∨ (ka.2.1 = kb.2.1 ∧
    (ka.2.2.1 < kb.2.2.1 ∨ (ka.2.2.1 = kb.2.2.1 ∧ ka.2.2.2 ≤ kb.2.2.2))))))

/-- The system of `can_model_wor` generalised to a list of proposed client
values: one write-once server (actor 0) and one client per value, each
proposing to server 0, over a lossy network with an empty initial network. -/
def worSystem (values : List Char) :
    ActorSystem (RegisterCfg Nat Char Unit) (RegisterMsg Char Unit) :=
  { actors := RegisterCfg.Server () ::
      values.map (fun v => RegisterCfg.Client [0] v),
    init_network := [],
    lossy_network := true }

/-- The invariant checked by `can_model_wor`: no responded value, or a single
responded value that is `'X'` or `'Y'`. -/
def worInvariant
    (state : ActorSystemSnapshot (RegisterMsg Char Unit)
      (RegisterState ServerState)) : Bool :=
  match response_values state with
  | [] => true
  | [v] => v = 'X' || v = 'Y'
  | _ => false

/-- The inductive invariant of the write-once-register system: actor 0 is
the server holding some `maybe_value`, every other actor state is `Client`,
and every `Respond` envelope in flight carries exactly the server's stored
value. -/
def WorInv
    (s : ActorSystemSnapshot (RegisterMsg Char Unit) (RegisterState ServerState)) :
    Prop :=
  ∃ mv cs, s.actor_states = RegisterState.Server ⟨mv⟩ :: cs ∧
    (∀ st ∈ cs, st = RegisterState.Client) ∧
    (∀ e ∈ s.network, ∀ v, e.msg = RegisterMsg.Respond v → mv = some v)

/-! ## Wire format

`serialize`/`deserialize` use `serde_json`; they are modelled at the
JSON-value level (a byte sequence that parses is identified with its
parse). -/

/-- JSON values, the codomain of the `serde_json` encoding. -/
inductive Json where
  | null
  | bool (b : Bool)
  | num (n : Int)
  | str (s : String)
  | arr (elems : List Json)
  | obj (fields : List (String × Json))

/-- The derived (externally tagged) `Serialize` of `RegisterMsg`: unit
variants encode as their name, newtype/struct variants as a one-field
object keyed by the variant name. -/
def encodeOuter {Value SMsg : Type} (encV : Value → Json) (encS : SMsg → Json) :
    RegisterMsg Value SMsg → Json
  | .Put value => .obj [("Put", .obj [("value", encV value)])]
  | .Get => .str "Get"
  | .Respond value => .obj [("Respond", .obj [("value", encV value)])]
  | .Internal m => .obj [("Internal", encS m)]

/-- The derived (externally tagged) `Deserialize` of `RegisterMsg`. -/
def decodeOuter {Value SMsg : Type} (decV : Json → Option Value)
    (decS : Json → Option SMsg) : Json → Option (RegisterMsg Value SMsg)
  | .str s => if s = "Get" then some RegisterMsg.Get else none
  | .obj [(tag, payload)] =>
      if tag = "Put" then
        match payload with
        | .obj [("value", jv)] => (decV jv).map RegisterMsg.Put
        | _ => none
      else if tag = "Respond" then
        match payload with
        | .obj [("value", jv)] => (decV jv).map RegisterMsg.Respond
        | _ => none
      else if tag = "Internal" then (decS payload).map RegisterMsg.Internal
      else none
  | _ => none

/-- `RegisterCfg::serialize`: an `Internal` message is encoded as the bare
inner server message; every other variant by the derived format. -/
def serializeMsg {Value SMsg : Type} (encV : Value → Json) (encS : SMsg → Json) :
    RegisterMsg Value SMsg → Json
  | .Internal m => encS m
  | m => encodeOuter encV encS m

/-- `RegisterCfg::deserialize`: first attempt the inner server-message
decode and wrap a success in `Internal`; only on failure decode the outer
union. -/
def deserializeMsg {Value SMsg : Type} (decV : Json → Option Value)
    (decS : Json → Option SMsg) (j : Json) : Option (RegisterMsg Value SMsg) :=
  match decS j with
  | some m => some (RegisterMsg.Internal m)
  | none => decodeOuter decV decS j

/-- `serde_json` encoding of `char`: a one-character JSON string. -/
def encodeChar (c : Char) : Json := .str (String.mk [c])

/-- `serde_json` decoding of `char`: accepts exactly one-character strings. -/
def decodeChar : Json → Option Char
  | .str s =>
      match s.toList with
      | [c] => some c
      | _ => none
  | _ => none

/-- `serde_json` encoding of `()`: `null`. -/
def encodeUnit (_ : Unit) : Json := .null

/-- `serde_json` decoding of `()`: accepts exactly `null`. -/
def decodeUnit : Json → Option Unit
  | .null => some ()
  | _ => none

/-! ## The `check` subcommand of `wor.rs` -/

/-- The client count used by the `check` subcommand:
`min(26, requested)` where `requested` is the parsed `u8` argument. -/
def usedClientCount (requested : Nat) : Nat := min 26 requested

/-- The actor list built by the `check` subcommand: the server, then one
client per `i` below the clamped count, proposing `('A' as u8 + i) as char`
(`u8` arithmetic, hence the `% 256`). -/
def checkActors (requested : Nat) : List (RegisterCfg Nat Char Unit) :=
  RegisterCfg.Server () ::
    (List.range (usedClientCount requested)).map
      (fun i => RegisterCfg.Client [0] (Char.ofNat ((65 + i) % 256)))

/-! ## Helper lemmas -/

theorem foldl_send_eq_flatMap {Id Value SMsg : Type}
    (ids : List Id) (v : Value)
    (acc : List (Id × RegisterMsg Value SMsg)) :
    ids.foldl
      (fun outputs server_id =>
        outputs ++ [(server_id, RegisterMsg.Put v), (server_id, RegisterMsg.Get)])
      acc =
    acc ++ ids.flatMap
      (fun id => [(id, RegisterMsg.Put v), (id, RegisterMsg.Get)]) := by
  induction ids generalizing acc with
  | nil => simp
  | cons id rest ih => simp [List.foldl_cons, ih]

end Stateright

namespace Stateright

/-- C2: a `RegisterCfg::Client` starts in state `Client`, emitting, for each
configured server id in order, exactly a `Put { value: desired_value }`
immediately followed by a `Get` to that id and nothing else; and `advance`
on a `Client` configuration returns `None` for every state and every
delivered input. -/
theorem client_start_and_advance {Id Value SCfg SMsg SState : Type}
    (sstart : SCfg → ActorResult Id (RegisterMsg Value SMsg) SState)
    (sadv : SCfg → SState → ActorInput Id (RegisterMsg Value SMsg) →
      Option (ActorResult Id (RegisterMsg Value SMsg) SState))
    (server_ids : List Id) (desired_value : Value) :
    RegisterCfg.start sstart (RegisterCfg.Client server_ids desired_value) =
      { state := RegisterState.Client,
        outputs := server_ids.flatMap (fun id =>
          [(id, RegisterMsg.Put desired_value), (id, RegisterMsg.Get)]) } ∧
    ∀ (state : RegisterState SState)
      (input : ActorInput Id (RegisterMsg Value SMsg)),
      RegisterCfg.advance sadv (RegisterCfg.Client server_ids desired_value)
        state input = none := by
  constructor
  · simp [RegisterCfg.start, foldl_send_eq_flatMap]
  · intro state input
    simp [RegisterCfg.advance]

/-- C6: a `RegisterCfg::Server` forwards `start` to the wrapped server actor
(wrapping only the state), and `advance` on a `Server` state returns `Some`
exactly when the wrapped actor's `advance` does, with the state wrapped in
`RegisterState::Server` and the outputs unchanged. -/
theorem server_forwards_start_and_advance {Id Value SCfg SMsg SState : Type}
    (sstart : SCfg → ActorResult Id (RegisterMsg Value SMsg) SState)
    (sadv : SCfg → SState → ActorInput Id (RegisterMsg Value SMsg) →
      Option (ActorResult Id (RegisterMsg Value SMsg) SState))
    (server_cfg : SCfg) :
    (RegisterCfg.start sstart (RegisterCfg.Server server_cfg)).state =
      RegisterState.Server (sstart server_cfg).state ∧
    (RegisterCfg.start sstart (RegisterCfg.Server server_cfg)).outputs =
      (sstart server_cfg).outputs ∧
    ∀ (server_state : SState) (input : ActorInput Id (RegisterMsg Value SMsg))
      (r : ActorResult Id (RegisterMsg Value SMsg) (RegisterState SState)),
      RegisterCfg.advance sadv (RegisterCfg.Server server_cfg)
          (RegisterState.Server server_state) input = some r ↔
        ∃ r', sadv server_cfg server_state input = some r' ∧
          r.state = RegisterState.Server r'.state ∧ r.outputs = r'.outputs := by
  refine ⟨rfl, rfl, ?_⟩
  intro server_state input r
  cases h : sadv server_cfg server_state input with
  | none => simp [RegisterCfg.advance, h]
  | some r' =>
      simp only [RegisterCfg.advance, h, Option.some.injEq]
      constructor
      · intro hr
        exact ⟨r', rfl, by rw [← hr], by rw [← hr]⟩
      · rintro ⟨r'', hr'', hstate, houtputs⟩
        subst hr''
        cases r
        simp_all

/-- C9: the write-once server starts with no stored value; a `Put` is
accepted exactly while no value is stored — and then records the put value —
and once a value is stored no transition on any input ever changes it. -/
theorem server_state_write_once (Id : Type) :
    (@serverStart Id).state.maybe_value = none ∧
    (∀ (st : ServerState) (src : Id) (v : Char),
      (serverAdvance st (ActorInput.Deliver src (RegisterMsg.Put v))).isSome ↔
        st.maybe_value = none) ∧
    (∀ (st : ServerState) (src : Id) (v : Char)
      (r : ActorResult Id (RegisterMsg Char Unit) ServerState),
      serverAdvance st (ActorInput.Deliver src (RegisterMsg.Put v)) = some r →
        r.state.maybe_value = some v) ∧
    (∀ (st : ServerState) (v : Char)
      (input : ActorInput Id (RegisterMsg Char Unit))
      (r : ActorResult Id (RegisterMsg Char Unit) ServerState),
      st.maybe_value = some v → serverAdvance st input = some r →
        r.state.maybe_value = some v) := by
  refine ⟨rfl, ?_, ?_, ?_⟩
  · intro st src v
    by_cases h : st.maybe_value = none <;> simp [serverAdvance, h]
  · intro st src v r hr
    by_cases h : st.maybe_value = none
    · simp [serverAdvance, h] at hr
      rw [← hr]
    · simp [serverAdvance, h] at hr
  · intro st v input r hst hr
    obtain ⟨src, msg⟩ := input
    cases msg with
    | Put w => simp [serverAdvance, hst] at hr
    | Get =>
        simp [serverAdvance, hst] at hr
        rw [← hr, hst]
    | Respond w => simp [serverAdvance] at hr
    | Internal m => simp [serverAdvance] at hr

/-- C9 witness: from the empty state, a `Put 'X'` is accepted and stores
`'X'`. -/
theorem server_state_write_once_witness :
    (@serverAdvance Nat ⟨none⟩
        (ActorInput.Deliver 1 (RegisterMsg.Put 'X'))).isSome ∧
    ServerState.maybe_value (ActorResult.state
      (⟨⟨some 'X'⟩, []⟩ : ActorResult Nat (RegisterMsg Char Unit) ServerState)) =
      some 'X' := by
  refine ⟨((server_state_write_once Nat).2.1 ⟨none⟩ 1 'X').mpr rfl, ?_⟩
  exact (server_state_write_once Nat).2.2.1 ⟨none⟩ 1 'X' ⟨⟨some 'X'⟩, []⟩ rfl

/-- C10: the write-once server answers a `Get` exactly when a value is
stored — leaving its state unchanged and emitting exactly one
`Respond { value }` to the sender — and ignores a `Get` with nothing
stored, a `Put` once a value is stored, and every `Respond` or `Internal`
input. -/
theorem server_advance_get_respond (Id : Type) (st : ServerState) (src : Id) :
    (∀ v, st.maybe_value = some v →
      serverAdvance st (ActorInput.Deliver src RegisterMsg.Get) =
        some { state := st, outputs := [(src, RegisterMsg.Respond v)] }) ∧
    (st.maybe_value = none →
      serverAdvance st (ActorInput.Deliver src RegisterMsg.Get) = none) ∧
    (∀ v w, st.maybe_value = some w →
      serverAdvance st (ActorInput.Deliver src (RegisterMsg.Put v)) = none) ∧
    (∀ v, serverAdvance st
      (ActorInput.Deliver src (RegisterMsg.Respond v)) = none) ∧
    (∀ m, serverAdvance st
      (ActorInput.Deliver src (RegisterMsg.Internal m)) = none) := by
  refine ⟨?_, ?_, ?_, ?_, ?_⟩
  · intro v hv
    simp [serverAdvance, hv]
  · intro hv
    simp [serverAdvance, hv]
  · intro v w hv
    simp [serverAdvance, hv]
  · intro v
    simp [serverAdvance]
  · intro m
    simp [serverAdvance]

theorem dedupConsec_cons_cons_self {α : Type} [DecidableEq α] (b : α)
    (rest : List α) : dedupConsec (b :: b :: rest) = dedupConsec (b :: rest) := by
  simp [dedupConsec]

theorem dedupConsec_cons_cons_ne {α : Type} [DecidableEq α] {a b : α}
    (rest : List α) (hne : a ≠ b) :
    dedupConsec (a :: b :: rest) = a :: dedupConsec (b :: rest) := by
  simp [dedupConsec, hne]

theorem mem_dedupConsec {α : Type} [DecidableEq α] (l : List α) (a : α) :
    a ∈ dedupConsec l ↔ a ∈ l := by
  induction l using dedupConsec.induct with
  | case1 => simp [dedupConsec]
  | case2 b => simp [dedupConsec]
  | case3 b rest ih =>
      rw [dedupConsec_cons_cons_self, ih]
      simp
  | case4 b c rest hne ih =>
      rw [dedupConsec_cons_cons_ne rest hne]
      simp only [List.mem_cons, ih]

theorem sorted_lt_dedupConsec {α : Type} [LinearOrder α] [DecidableEq α]
    (l : List α)
    (h : l.Sorted (· ≤ ·)) : (dedupConsec l).Sorted (· < ·) := by
  induction l using dedupConsec.induct with
  | case1 => simp [dedupConsec]
  | case2 b => simp [dedupConsec]
  | case3 b rest ih =>
      rw [dedupConsec_cons_cons_self]
      exact ih h.of_cons
  | case4 b c rest hne ih =>
      rw [dedupConsec_cons_cons_ne rest hne]
      rw [List.sorted_cons]
      refine ⟨?_, ih h.of_cons⟩
      intro d hd
      have hd' : d ∈ c :: rest := (mem_dedupConsec _ _).mp hd
      have hbc : b < c :=
        lt_of_le_of_ne (List.rel_of_sorted_cons h c (List.mem_cons_self c rest)) hne
      rcases List.mem_cons.mp hd' with rfl | hdrest
      · exact hbc
      · exact lt_of_lt_of_le hbc (List.rel_of_sorted_cons h.of_cons d hdrest)

theorem length_dedupConsec_le_one {α : Type} [DecidableEq α] (l : List α)
    (h : ∀ a ∈ l, ∀ b ∈ l, a = b) : (dedupConsec l).length ≤ 1 := by
  induction l using dedupConsec.induct with
  | case1 => simp [dedupConsec]
  | case2 b => simp [dedupConsec]
  | case3 b rest ih =>
      rw [dedupConsec_cons_cons_self]
      exact ih (fun a ha a' ha' =>
        h a (List.mem_cons_of_mem _ ha) a' (List.mem_cons_of_mem _ ha'))
  | case4 b c rest hne ih =>
      exact absurd (h b (List.mem_cons_self b (c :: rest)) c
        (List.mem_cons_of_mem _ (List.mem_cons_self c rest))) hne

theorem respond_filter_eq_some {Value SMsg : Type} (m : RegisterMsg Value SMsg)
    (v : Value) :
    respondValue m = some v ↔ m = RegisterMsg.Respond v := by
  cases m <;> simp [respondValue]

/-- C3: `response_values` returns the strictly increasing (sorted,
duplicate-free) list of exactly the values carried by `Respond` envelopes in
the snapshot's network, ignoring `Put`, `Get`, and `Internal` envelopes. -/
theorem response_values_spec {Value : Type} [LinearOrder Value]
    [DecidableEq Value] {SMsg SState : Type}
    (s : ActorSystemSnapshot (RegisterMsg Value SMsg) (RegisterState SState)) :
    (response_values s).Sorted (· < ·) ∧
    ∀ v, v ∈ response_values s ↔
      ∃ e ∈ s.network, e.msg = RegisterMsg.Respond v := by
  constructor
  · exact sorted_lt_dedupConsec _ (List.sorted_insertionSort (· ≤ ·) _)
  · intro v
    rw [response_values, mem_dedupConsec,
      (List.perm_insertionSort (· ≤ ·) _).mem_iff, List.mem_filterMap]
    constructor
    · rintro ⟨e, he, hfe⟩
      exact ⟨e, he, (respond_filter_eq_some e.msg v).mp hfe⟩
    · rintro ⟨e, he, hmsg⟩
      exact ⟨e, he, (respond_filter_eq_some e.msg v).mpr hmsg⟩

/-- C10 witness: with `'X'` stored, a `Get` from actor 2 is answered by
`Respond 'X'` to actor 2, and a `Put 'Y'` is ignored. -/
theorem server_advance_get_respond_witness :
    ((⟨some 'X'⟩ : ServerState).maybe_value = some 'X') ∧
    @serverAdvance Nat ⟨some 'X'⟩ (ActorInput.Deliver 2 RegisterMsg.Get) =
      some { state := ⟨some 'X'⟩, outputs := [(2, RegisterMsg.Respond 'X')] } ∧
    @serverAdvance Nat ⟨some 'X'⟩
      (ActorInput.Deliver 2 (RegisterMsg.Put 'Y')) = none := by
  refine ⟨rfl, ?_, ?_⟩
  · exact (server_advance_get_respond Nat ⟨some 'X'⟩ 2).1 'X' rfl
  · exact (server_advance_get_respond Nat ⟨some 'X'⟩ 2).2.2.1 'Y' 'X' rfl

/-- C4: at the repository's instantiation of the union
(`Value = char`, `ServerMsg = ()`, as in `wor.rs`), deserializing the
result of serializing any message — nested server-internal payloads
included — reproduces the message exactly. -/
theorem serialize_deserialize_roundtrip (m : RegisterMsg Char Unit) :
    deserializeMsg decodeChar decodeUnit
      (serializeMsg encodeChar encodeUnit m) = some m := by
  cases m <;> rfl

/-- C5: `deserialize` first attempts the inner server-message decode and on
success returns `Internal` of the decoded value; only when the inner decode
fails does it decode the outer union. -/
theorem deserialize_inner_first {Value SMsg : Type}
    (decV : Json → Option Value) (decS : Json → Option SMsg) (j : Json) :
    (∀ m, decS j = some m →
      deserializeMsg decV decS j = some (RegisterMsg.Internal m)) ∧
    (decS j = none →
      deserializeMsg decV decS j = decodeOuter decV decS j) := by
  constructor
  · intro m hm
    simp [deserializeMsg, hm]
  · intro hm
    simp [deserializeMsg, hm]

/-- C5 witness: on `null`, the inner `()` decode succeeds, so the result is
`Internal ()`. -/
theorem deserialize_inner_first_witness :
    decodeUnit Json.null = some () ∧
    deserializeMsg decodeChar decodeUnit Json.null =
      some (RegisterMsg.Internal ()) :=
  ⟨rfl, (deserialize_inner_first decodeChar decodeUnit Json.null).1 () rfl⟩

/-- C8: the `check` subcommand's client count is the minimum of the request
and 26 (so a request of 30 is clamped to 26), and the clients constructed
propose `'A'`, `'B'`, … in order — one distinct value per client. -/
theorem check_client_count_clamped (requested : Nat) :
    usedClientCount requested = min requested 26 ∧
    usedClientCount 30 = 26 ∧
    (∀ i, i < usedClientCount requested →
      (checkActors requested)[i + 1]? =
        some (RegisterCfg.Client [0] (Char.ofNat (65 + i)))) ∧
    ((List.range (usedClientCount requested)).map
      (fun i => Char.ofNat ((65 + i) % 256))).Pairwise (· ≠ ·) := by
  have hle : usedClientCount requested ≤ 26 := Nat.min_le_left _ _
  refine ⟨Nat.min_comm 26 requested, rfl, ?_, ?_⟩
  · intro i hi
    have hi26 : i < 26 := lt_of_lt_of_le hi hle
    have hmod : (65 + i) % 256 = 65 + i := Nat.mod_eq_of_lt (by omega)
    simp [checkActors, List.getElem?_map, List.getElem?_range hi, hmod]
  · have hdist : ∀ a < 26, ∀ b < 26, a ≠ b →
        Char.ofNat ((65 + a) % 256) ≠ Char.ofNat ((65 + b) % 256) := by decide
    rw [List.pairwise_map]
    refine List.Pairwise.imp_of_mem ?_ (List.pairwise_lt_range _)
    intro a b ha hb hab
    exact hdist a (lt_of_lt_of_le (List.mem_range.mp ha) hle)
      b (lt_of_lt_of_le (List.mem_range.mp hb) hle) (Nat.ne_of_lt hab)

theorem mem_insertEnv {Msg : Type} [DecidableEq Msg]
    (le : Envelope Nat Msg → Envelope Nat Msg → Bool)
    (e x : Envelope Nat Msg) (l : List (Envelope Nat Msg)) :
    x ∈ insertEnv le e l ↔ x = e ∨ x ∈ l := by
  induction l with
  | nil => simp [insertEnv]
  | cons a rest ih =>
      simp only [insertEnv]
      by_cases h1 : e = a
      · rw [if_pos h1]
        subst h1
        simp only [List.mem_cons]
        tauto
      · rw [if_neg h1]
        by_cases h2 : le e a = true
        · rw [if_pos h2]
          simp only [List.mem_cons]
        · rw [if_neg h2]
          simp only [List.mem_cons, ih]
          tauto

theorem mem_foldl_insertEnv {Msg : Type} [DecidableEq Msg]
    (le : Envelope Nat Msg → Envelope Nat Msg → Bool)
    (l acc : List (Envelope Nat Msg)) (x : Envelope Nat Msg)
    (hx : x ∈ l.foldl (fun net e => insertEnv le e net) acc) :
    x ∈ acc ∨ x ∈ l := by
  induction l generalizing acc with
  | nil => exact Or.inl hx
  | cons a rest ih =>
      rcases ih (insertEnv le a acc) hx with h | h
      · rcases (mem_insertEnv le a x acc).mp h with rfl | h'
        · exact Or.inr (List.mem_cons_self _ _)
        · exact Or.inl h'
      · exact Or.inr (List.mem_cons_of_mem a h)

theorem advance_client_none (ids : List Nat) (v : Char)
    (st : RegisterState ServerState)
    (input : ActorInput Nat (RegisterMsg Char Unit)) :
    (worActorImpl (RegisterCfg.Client ids v)).advance st input = none := rfl

/-- The initial snapshot of the write-once-register system satisfies the
invariant: the server starts empty and the only in-flight messages are the
clients' `Put`s and `Get`s. -/
theorem worInv_init (values : List Char) :
    WorInv (initialSnapshot worActorImpl worEnvLE (worSystem values)) := by
  refine ⟨none, values.map (fun _ => RegisterState.Client), ?_, ?_, ?_⟩
  · simp only [initialSnapshot, worSystem, List.map_cons, List.map_map]
    rfl
  · intro st hst
    rcases List.mem_map.mp hst with ⟨v, _, rfl⟩
    rfl
  · intro e he v hmsg
    rcases mem_foldl_insertEnv worEnvLE _ [] e he with h | h
    · simp at h
    · rw [List.mem_append] at h
      rcases h with h | h
      · simp [worSystem] at h
      · rw [List.mem_flatMap] at h
        obtain ⟨i, _, hi⟩ := h
        rcases hig : (worSystem values).actors[i]? with _ | cfg
        · rw [hig] at hi
          simp at hi
        · rw [hig] at hi
          rw [List.mem_map] at hi
          obtain ⟨o, ho, rfl⟩ := hi
          have hmsg' : o.2 = RegisterMsg.Respond v := hmsg
          cases cfg with
          | Client ids w =>
              rw [show (worActorImpl (RegisterCfg.Client ids w)).start.outputs =
                  ids.flatMap (fun id =>
                    [(id, RegisterMsg.Put w), (id, RegisterMsg.Get)]) from by
                simp [worActorImpl, RegisterCfg.start, foldl_send_eq_flatMap]] at ho
              rw [List.mem_flatMap] at ho
              obtain ⟨id, _, hid⟩ := ho
              simp only [List.mem_cons, List.not_mem_nil, or_false] at hid
              rcases hid with rfl | rfl <;> simp at hmsg'
          | Server scfg =>
              have houts : (worActorImpl (RegisterCfg.Server scfg)).start.outputs =
                  [] := rfl
              rw [houts] at ho
              simp at ho

/-- Every successor of an invariant snapshot of the write-once system keeps
the invariant: clients never react, drops only remove envelopes, and the
server only ever adds `Respond`s of its (permanent) stored value. -/
theorem worInv_step (values : List Char)
    (s s' : ActorSystemSnapshot (RegisterMsg Char Unit) (RegisterState ServerState))
    (hInv : WorInv s)
    (hstep : s' ∈ successors worActorImpl worEnvLE (worSystem values) s) :
    WorInv s' := by
  obtain ⟨mv, cs, hstates, hcs, hresp⟩ := hInv
  rw [successors, List.mem_flatMap] at hstep
  obtain ⟨e, he, hmem⟩ := hstep
  rw [List.mem_append] at hmem
  obtain ⟨esrc, edst, emsg⟩ := e
  rcases hmem with hdel | hdrop
  · -- deliver branch
    rw [deliverSuccs] at hdel
    rcases edst with _ | k
    · -- delivering to the server (actor 0)
      rw [hstates] at hdel
      cases emsg with
      | Put w =>
          rcases hmv : mv with _ | u
          · subst hmv
            simp [worSystem, worActorImpl, serverImpl, RegisterCfg.advance,
              serverAdvance] at hdel
            subst hdel
            refine ⟨some w, cs, rfl, hcs, ?_⟩
            intro e' he' v hmsg
            exact absurd (hresp e' he' v hmsg) (by simp)
          · subst hmv
            simp [worSystem, worActorImpl, serverImpl, RegisterCfg.advance,
              serverAdvance] at hdel
      | Get =>
          rcases hmv : mv with _ | u
          · subst hmv
            simp [worSystem, worActorImpl, serverImpl, RegisterCfg.advance,
              serverAdvance] at hdel
          · subst hmv
            simp [worSystem, worActorImpl, serverImpl, RegisterCfg.advance,
              serverAdvance] at hdel
            subst hdel
            refine ⟨some u, cs, rfl, hcs, ?_⟩
            intro e' he' v hmsg
            rcases (mem_insertEnv worEnvLE _ e' _).mp he' with rfl | hold
            · cases hmsg
              rfl
            · exact hresp e' hold v hmsg
      | Respond w =>
          simp [worSystem, worActorImpl, serverImpl, RegisterCfg.advance,
            serverAdvance] at hdel
      | Internal m =>
          simp [worSystem, worActorImpl, serverImpl, RegisterCfg.advance,
            serverAdvance] at hdel
    · -- delivering to a client (actor k+1): clients never react
      rcases hig : (worSystem values).actors[k + 1]? with _ | cfg
      · rw [hig] at hdel
        simp at hdel
      · rw [hig] at hdel
        have hcfg : ∃ w, cfg = RegisterCfg.Client [0] w := by
          have hm : (values.map (fun v => RegisterCfg.Client [0] v) : List (RegisterCfg Nat Char Unit))[k]? =
              some cfg := by simpa [worSystem] using hig
          rw [List.getElem?_map] at hm
          rcases hvk : values[k]? with _ | w
          · rw [hvk] at hm
            simp at hm
          · rw [hvk] at hm
            simp at hm
            exact ⟨w, hm.symm⟩
        obtain ⟨w, rfl⟩ := hcfg
        rcases hstk : s.actor_states[k + 1]? with _ | st
        · rw [hstk] at hdel
          simp at hdel
        · rw [hstk] at hdel
          simp [advance_client_none] at hdel
  · -- drop branch
    simp only [worSystem, if_true, List.mem_singleton] at hdrop
    subst hdrop
    exact ⟨mv, cs, hstates, hcs, fun e' he' v hmsg =>
      hresp e' (List.mem_of_mem_erase he') v hmsg⟩

/-- C1: for every snapshot reachable under the lossy-network step relation
from the initial snapshot of the write-once-register system — one `ServerCfg`
server and any number of clients proposing pairwise-distinct values — the
set of distinct `Respond` values observed is empty or a singleton, never of
size two or more. -/
theorem wor_reachable_at_most_one_respond (values : List Char)
    (hdist : values.Pairwise (· ≠ ·))
    (s : ActorSystemSnapshot (RegisterMsg Char Unit) (RegisterState ServerState))
    (hs : Reachable worActorImpl worEnvLE (worSystem values) s) :
    (response_values s).length ≤ 1 := by
  have hInv : WorInv s := by
    rw [Reachable] at hs
    induction hs with
    | refl => exact worInv_init values
    | tail hab hbc ih => exact worInv_step values _ _ ih hbc
  obtain ⟨mv, cs, hstates, hcs, hresp⟩ := hInv
  simp only [response_values]
  have hmem : ∀ c, c ∈ (s.network.filterMap
      (fun env => respondValue env.msg)).insertionSort (· ≤ ·) →
      mv = some c := by
    intro c hc
    rw [(List.perm_insertionSort _ _).mem_iff, List.mem_filterMap] at hc
    obtain ⟨env, henv, hf⟩ := hc
    exact hresp env henv c ((respond_filter_eq_some env.msg c).mp hf)
  exact length_dedupConsec_le_one _ (fun a ha b hb =>
    Option.some.inj ((hmem a ha).symm.trans (hmem b hb)))

/-- C1 witness: instantiated with the two clients proposing `'X'` and `'Y'`,
at the (reachable) initial snapshot. -/
theorem wor_reachable_at_most_one_respond_witness :
    (['X', 'Y'] : List Char).Pairwise (· ≠ ·) ∧
    (response_values (initialSnapshot worActorImpl worEnvLE
      (worSystem ['X', 'Y']))).length ≤ 1 :=
  ⟨by decide, wor_reachable_at_most_one_respond ['X', 'Y'] (by decide) _
    Relation.ReflTransGen.refl⟩

set_option maxRecDepth 100000 in
set_option maxHeartbeats 8000000 in
/-- C7: for the system of one server and two clients proposing `'X'` and
`'Y'` over a lossy network with empty initial network, checking the
write-once invariant with bound 10,000 passes and visits exactly 144
distinct snapshots. -/
theorem wor_check_scenario_a :
    (check worActorImpl worEnvLE (worSystem ['X', 'Y'])
      worInvariant 10000).1 = CheckResult.Pass ∧
    (check worActorImpl worEnvLE (worSystem ['X', 'Y'])
      worInvariant 10000).2.length = 144 := by
  constructor
  · decide
  · decide

/-- C8 witness: a requested count of 30 is used as 26, and the first client
proposes `'A'`. -/
theorem check_client_count_clamped_witness :
    usedClientCount 30 = 26 ∧ 0 < usedClientCount 30 ∧
    (checkActors 30)[1]? =
      some (RegisterCfg.Client [0] (Char.ofNat 65)) :=
  ⟨(check_client_count_clamped 30).2.1, by decide,
   (check_client_count_clamped 30).2.2.1 0 (by decide)⟩

end Stateright

